import Mathlib

/-!
Shallow embedding of `src/file-cleanup/prune_dir_by_age.py` and proofs about
its scan-filter-act-log pipeline.

Modelling conventions:
- a filesystem path is the list of its components (Python `Path.parts`);
  paths of entries below the cleanup target are taken relative to the target
  root, so the target root itself is the empty list;
- instants (datetime values) are integers; `strftime` is modelled by
  `toString`;
- the regex engine (`re`) is an external collaborator: a compiled pattern
  carries an abstract `matchesAt` predicate ("the pattern matches starting at
  this character index"), and `re.Pattern.search` tries every start index;
  `re.compile` is an abstract fallible function supplied as a parameter;
- OS calls that can fail (`stat`, `unlink`, `iterdir`, `rmdir`) are modelled
  by `Except`/`Option` valued fields or environment functions giving, per
  entry, the outcome the OS would return during the run;
- quoting punctuation inside warning messages is elided; the informative
  parts (fixed prefix, path, OS error text) are kept verbatim.
-/

/-- Filesystem path as its list of components (Python `Path.parts`), relative
to the cleanup target for entries below it; the target root is `[]`. -/
abbrev FsPath := List String

/-- Rendering of a path as a string (Python `str(path)`). -/
def pathStr (p : FsPath) : String := String.intercalate "/" p

/-- Last path component (Python `Path.name`). -/
def pathName (p : FsPath) : String := p.getLastD ""

/-- Model of `datetime.strftime` on the instants we track. -/
def fmtTime (t : Int) : String := toString t

/-- Model of a compiled `re.Pattern`: the raw pattern text together with the
regex-engine collaborator semantics, given as the predicate telling whether
the pattern matches starting at a given character index of a string. -/
structure RePattern where
  raw : String
  matchesAt : String → Nat → Bool

/-- Model of `re.Pattern.search`: true when the pattern matches starting at
some index anywhere within the string (index `s.length` included, since an
empty match at the end is possible). -/
def RePattern.search (p : RePattern) (s : String) : Bool :=
  (List.range (s.length + 1)).any (fun i => p.matchesAt s i)

/-- Translation of `matches_any` (prune_dir_by_age.py lines 103-105): true if
the name matches at least one compiled pattern. -/
def matches_any (name : String) (patterns : List RePattern) : Bool :=
  patterns.any (fun p => p.search name)

/-- Pattern filter applied by `prune_files` at lines 146-147: a file is
skipped exactly when the pattern list is nonempty and `matches_any` rejects
its name; `pattern_allows` is the negation, i.e. the file passes the filter. -/
def pattern_allows (name : String) (patterns : List RePattern) : Bool :=
  !(!patterns.isEmpty && !matches_any name patterns)

/-- Outcome of the `re.compile` collaborator on one raw pattern string. -/
abbrev CompileFun := String → Except String RePattern

/-- Translation of `compile_patterns` (lines 89-100): compile each raw string
independently; a pattern that fails to compile contributes one warning line
and is dropped, and the loop continues with the remaining patterns. Returns
the compiled patterns and the warning lines, each in input order. -/
def compile_patterns (compile : CompileFun) : List String → List RePattern × List String
  | [] => ([], [])
  | pat :: rest =>
    match compile pat with
    | .ok p =>
      let r := compile_patterns compile rest
      (p :: r.1, r.2)
    | .error exc =>
      let r := compile_patterns compile rest
      (r.1, ("warning: skipping invalid regex " ++ pat ++ ": " ++ exc) :: r.2)

/-- One row of the CSV audit log (`write_csv_row`, lines 108-116), under the
header Date, File, LastWriteTime, Message. -/
structure AuditRecord where
  date : String
  file : FsPath
  lastWriteTime : String
  message : String
deriving DecidableEq

deriving instance DecidableEq for Except

/-- One filesystem entry yielded by `target.rglob` during the file phase,
together with the collaborator behaviour of the OS calls made on it: its
path, its resolved path (`Path.resolve`, symlinks followed), whether it is a
regular file, the outcome `stat` would give (modification time or an OS error
message), and the outcome `unlink` would give. -/
structure FileEntry where
  path : FsPath
  resolved : FsPath
  isFile : Bool
  stat : Except String Int
  unlink : Except String Unit
deriving DecidableEq

/-- Observable outcome of the file-pruning phase: audit rows appended, paths
successfully unlinked, stderr warnings and stdout notices, in traversal
order. -/
structure FileRunResult where
  records : List AuditRecord
  deleted : List FsPath
  warnings : List String
  notices : List String
deriving DecidableEq

/-- Translation of the `prune_files` loop body (lines 130-162) for one entry:
skip non-files; skip the entry whose resolved path equals the resolved log
path; on stat failure warn and skip; skip files whose mtime is at or after
the cutoff; apply the pattern filter; then either record a dry run, or unlink
and record `deleted`, or record and warn about the unlink error. -/
def processFile (cutoff : Int) (patterns : List RePattern) (logResolved : FsPath)
    (dryRun : Bool) (nowStr : String) (e : FileEntry) : FileRunResult :=
  if !e.isFile then ⟨[], [], [], []⟩
  else if e.resolved = logResolved then ⟨[], [], [], []⟩
  else
    match e.stat with
    | .error exc =>
      ⟨[], [], ["warning: cannot stat " ++ pathStr e.path ++ ": " ++ exc], []⟩
    | .ok mtime =>
      if mtime ≥ cutoff then ⟨[], [], [], []⟩
      else if !pattern_allows (pathName e.path) patterns then ⟨[], [], [], []⟩
      else if dryRun then
        ⟨[⟨nowStr, e.path, fmtTime mtime, "dry-run"⟩], [], [],
         ["[dry-run] would delete: " ++ pathStr e.path]⟩
      else
        match e.unlink with
        | .ok _ => ⟨[⟨nowStr, e.path, fmtTime mtime, "deleted"⟩], [e.path], [], []⟩
        | .error exc =>
          ⟨[⟨nowStr, e.path, fmtTime mtime, "error deleting: " ++ exc⟩], [],
           ["warning: error deleting: " ++ exc ++ " " ++ pathStr e.path], []⟩

/-- Translation of `prune_files` (lines 120-162): `datetime.now()` is read
once at line 129 into the shared date string, and the sorted rglob snapshot
is processed entry by entry, each entry contributing its rows, deletions,
warnings and notices independently. -/
def prune_files (cutoff : Int) (patterns : List RePattern) (logResolved : FsPath)
    (dryRun : Bool) (now : Int) (entries : List FileEntry) : FileRunResult :=
  ⟨entries.flatMap (fun e => (processFile cutoff patterns logResolved dryRun (fmtTime now) e).records),
   entries.flatMap (fun e => (processFile cutoff patterns logResolved dryRun (fmtTime now) e).deleted),
   entries.flatMap (fun e => (processFile cutoff patterns logResolved dryRun (fmtTime now) e).warnings),
   entries.flatMap (fun e => (processFile cutoff patterns logResolved dryRun (fmtTime now) e).notices)⟩

/-- Immediate-child test (what `d.iterdir()` lists): `p` is a direct child of
directory `d`. -/
def isChildOf (p d : FsPath) : Bool :=
  p.length == d.length + 1 && p.dropLast == d

/-- Directory-phase filesystem state: the directories and files currently
existing under the target; the target root is the path `[]`. -/
structure DirFS where
  dirs : List FsPath
  files : List FsPath
deriving DecidableEq

/-- Model of the emptiness test at line 179 (`any(d.iterdir())` is false): a
directory is empty when no existing directory or file is its immediate
child. -/
def isEmptyDir (fs : DirFS) (d : FsPath) : Bool :=
  !(fs.dirs.any (fun p => isChildOf p d) || fs.files.any (fun p => isChildOf p d))

/-- State threaded through the directory-phase loop: the current filesystem
plus the audit rows, warnings and notices accumulated so far. -/
structure DirRunState where
  fs : DirFS
  records : List AuditRecord
  warnings : List String
  notices : List String
deriving DecidableEq

/-- Collaborator outcome of one OS call (`iterdir` or `rmdir`) on a given
directory during the run: `none` is success, `some` is the OS error text. -/
abbrev OsErrFun := FsPath → Option String

/-- Translation of the `prune_empty_dirs` loop body (lines 177-196) for one
directory: on iterdir failure warn and skip; skip nonempty directories; in
dry-run record the preview and print a notice; otherwise rmdir, recording
success or recording and warning about the OS error. -/
def dirStep (listErr rmdirErr : OsErrFun) (dryRun : Bool) (nowStr : String)
    (st : DirRunState) (d : FsPath) : DirRunState :=
  match listErr d with
  | some exc =>
    { st with
      warnings := st.warnings ++
        ["warning: cannot read dir " ++ pathStr d ++ ": " ++ exc] }
  | none =>
    if !isEmptyDir st.fs d then st
    else if dryRun then
      { st with
        records := st.records ++ [⟨nowStr, d, "", "dry-run empty dir"⟩],
        notices := st.notices ++
          ["[dry-run] would remove empty dir: " ++ pathStr d] }
    else
      match rmdirErr d with
      | none =>
        { st with
          fs := ⟨st.fs.dirs.erase d, st.fs.files⟩,
          records := st.records ++ [⟨nowStr, d, "", "removed empty dir"⟩] }
      | some exc =>
        { st with
          records := st.records ++
            [⟨nowStr, d, "", "error removing dir: " ++ exc⟩],
          warnings := st.warnings ++
            ["warning: error removing dir: " ++ exc ++ " " ++ pathStr d] }

/-- Model of `target.rglob("*")` restricted to directories (line 173): every
existing directory strictly below the target. The target root itself
(relative path `[]`) is never yielded, because the glob pattern requires at
least one relative path component. -/
def rglobSubdirs (dirs : List FsPath) : List FsPath :=
  dirs.filter (fun p => !p.isEmpty)

/-- Depth key used at line 174, `len(d.parts)`: for paths relative to one
fixed target root this is the component count. -/
def depthOf (p : FsPath) : Nat := p.length

/-- Translation of the snapshot sort at lines 172-176: stable sort of the
subdirectory list by depth descending (`key=len(parts), reverse=True`). -/
def sortByDepthDesc (ds : List FsPath) : List FsPath :=
  ds.insertionSort (fun a b => depthOf b ≤ depthOf a)

/-- Translation of `prune_empty_dirs` (lines 165-196): `datetime.now()` is
read once at line 171 into the shared date string; the sorted deepest-first
subdirectory snapshot is processed in a single pass against the evolving
filesystem state. -/
def prune_empty_dirs (listErr rmdirErr : OsErrFun) (dryRun : Bool) (now : Int)
    (fs : DirFS) : DirRunState :=
  (sortByDepthDesc (rglobSubdirs fs.dirs)).foldl
    (dirStep listErr rmdirErr dryRun (fmtTime now)) ⟨fs, [], [], []⟩

/-- C3: with an empty pattern set the prune_files pattern filter accepts every
name (no filter means universal match); with a nonempty set it accepts exactly
when some compiled pattern finds a match starting at some position anywhere
within the name (search/substring semantics, not anchored full-match). -/
theorem c3_pattern_filter_semantics :
    (∀ name : String, pattern_allows name [] = true) ∧
    (∀ (name : String) (ps : List RePattern), ps ≠ [] →
      (pattern_allows name ps = true ↔
        ∃ p ∈ ps, ∃ i, i ≤ name.length ∧ p.matchesAt name i = true)) := by
  constructor
  · intro name; rfl
  · intro name ps hne
    unfold pattern_allows matches_any RePattern.search
    cases ps with
    | nil => exact absurd rfl hne
    | cons p t =>
      simp [List.any_eq_true, Nat.lt_succ_iff]

/-- Witness for c3_pattern_filter_semantics at a concrete nonempty pattern
set whose single pattern matches at index 1 of the name. -/
theorem c3_pattern_filter_semantics_witness :
    pattern_allows "ab" [⟨"x", fun _ i => decide (i = 1)⟩] = true :=
  (c3_pattern_filter_semantics.2 "ab" [⟨"x", fun _ i => decide (i = 1)⟩]
    (by simp)).mpr ⟨⟨"x", fun _ i => decide (i = 1)⟩, by simp, 1, by decide, by decide⟩

/-- C8: `compile_patterns` compiles each raw pattern independently: the active
set is exactly the patterns whose compilation succeeds, one warning line is
issued per failing pattern, and (second part) a failing pattern inserted
anywhere leaves the compiled set of the remaining patterns unchanged, so
compilation never aborts and filtering uses only the patterns that
compiled. -/
theorem c8_compile_patterns_independent (compile : CompileFun) :
    (∀ rs : List String,
      compile_patterns compile rs =
        (rs.filterMap (fun r => (compile r).toOption),
         rs.filterMap (fun r =>
           match compile r with
           | .ok _ => none
           | .error exc =>
             some ("warning: skipping invalid regex " ++ r ++ ": " ++ exc)))) ∧
    (∀ (xs ys : List String) (bad exc : String), compile bad = .error exc →
      (compile_patterns compile (xs ++ bad :: ys)).1 =
        (compile_patterns compile (xs ++ ys)).1) := by
  have main : ∀ rs : List String,
      compile_patterns compile rs =
        (rs.filterMap (fun r => (compile r).toOption),
         rs.filterMap (fun r =>
           match compile r with
           | .ok _ => none
           | .error exc =>
             some ("warning: skipping invalid regex " ++ r ++ ": " ++ exc))) := by
    intro rs
    induction rs with
    | nil => rfl
    | cons pat rest ih =>
      unfold compile_patterns
      cases h : compile pat with
      | ok p => simp [ih, List.filterMap_cons, h, Except.toOption]
      | error exc => simp [ih, List.filterMap_cons, h, Except.toOption]
  refine ⟨main, ?_⟩
  intro xs ys bad exc hbad
  rw [main, main]
  simp [List.filterMap_append, List.filterMap_cons, hbad, Except.toOption]

/-- Witness for c8_compile_patterns_independent: an unbalanced-bracket pattern
between two valid ones leaves the compiled set equal to that of the two valid
patterns alone. -/
theorem c8_compile_patterns_independent_witness :
    (compile_patterns
      (fun s => if s = "[" then .error "unbalanced" else .ok ⟨s, fun _ _ => false⟩)
      (["a"] ++ "[" :: ["b"])).1 =
    (compile_patterns
      (fun s => if s = "[" then .error "unbalanced" else .ok ⟨s, fun _ _ => false⟩)
      (["a"] ++ ["b"])).1 :=
  (c8_compile_patterns_independent _).2 ["a"] ["b"] "[" "unbalanced" rfl

/-- Every audit row and every deletion emitted for one entry names that
entry's path, and every row carries the shared date string. -/
theorem processFile_components (cutoff : Int) (patterns : List RePattern)
    (logResolved : FsPath) (dryRun : Bool) (nowStr : String) (e : FileEntry) :
    (∀ r ∈ (processFile cutoff patterns logResolved dryRun nowStr e).records,
      r.file = e.path ∧ r.date = nowStr) ∧
    (∀ q ∈ (processFile cutoff patterns logResolved dryRun nowStr e).deleted,
      q = e.path) := by
  unfold processFile
  repeat' split
  all_goals simp_all

/-- An entry whose resolved path equals the resolved log path contributes
nothing at all, whatever its other fields are. -/
theorem processFile_log_excluded (cutoff : Int) (patterns : List RePattern)
    (logResolved : FsPath) (dryRun : Bool) (nowStr : String) (e : FileEntry)
    (hlog : e.resolved = logResolved) :
    processFile cutoff patterns logResolved dryRun nowStr e = ⟨[], [], [], []⟩ := by
  unfold processFile
  rcases h : e.isFile with _ | _ <;> simp [hlog]

/-- An entry whose stat succeeds with a modification time at or after the
cutoff contributes nothing, in either mode. -/
theorem processFile_retained (cutoff : Int) (patterns : List RePattern)
    (logResolved : FsPath) (dryRun : Bool) (nowStr : String) (e : FileEntry)
    (m : Int) (hstat : e.stat = .ok m) (hm : cutoff ≤ m) :
    processFile cutoff patterns logResolved dryRun nowStr e = ⟨[], [], [], []⟩ := by
  unfold processFile
  rw [hstat]
  rcases e.isFile with _ | _ <;>
    rcases Decidable.em (e.resolved = logResolved) with h | h <;>
      simp [h, hm]

/-- Evaluation of an eligible entry (regular file, not the log, stat ok,
strictly older than the cutoff, pattern filter passed) whose unlink would
succeed: one dry-run row and no deletion, or one deleted row and one
deletion. -/
theorem processFile_eligible (cutoff : Int) (patterns : List RePattern)
    (logResolved : FsPath) (dryRun : Bool) (nowStr : String) (e : FileEntry)
    (m : Int) (hf : e.isFile = true) (hlog : e.resolved ≠ logResolved)
    (hstat : e.stat = .ok m) (hm : m < cutoff)
    (hpat : pattern_allows (pathName e.path) patterns = true)
    (hok : e.unlink = .ok ()) :
    processFile cutoff patterns logResolved dryRun nowStr e =
      if dryRun then
        ⟨[⟨nowStr, e.path, fmtTime m, "dry-run"⟩], [], [],
         ["[dry-run] would delete: " ++ pathStr e.path]⟩
      else ⟨[⟨nowStr, e.path, fmtTime m, "deleted"⟩], [e.path], [], []⟩ := by
  unfold processFile
  rw [hstat, hok]
  simp [hf, hlog, not_le.mpr hm, hpat]

/-- Evaluation of an eligible entry whose unlink fails in non-dry-run mode:
one row carrying the OS error text, a warning, and no deletion. -/
theorem processFile_unlink_failed (cutoff : Int) (patterns : List RePattern)
    (logResolved : FsPath) (nowStr : String) (e : FileEntry)
    (m : Int) (exc : String) (hf : e.isFile = true)
    (hlog : e.resolved ≠ logResolved) (hstat : e.stat = .ok m) (hm : m < cutoff)
    (hpat : pattern_allows (pathName e.path) patterns = true)
    (hu : e.unlink = .error exc) :
    processFile cutoff patterns logResolved false nowStr e =
      ⟨[⟨nowStr, e.path, fmtTime m, "error deleting: " ++ exc⟩], [],
       ["warning: error deleting: " ++ exc ++ " " ++ pathStr e.path], []⟩ := by
  unfold processFile
  rw [hstat, hu]
  simp [hf, hlog, not_le.mpr hm, hpat]

/-- Evaluation of a regular non-log entry whose stat fails: a warning and
nothing else. -/
theorem processFile_stat_failed (cutoff : Int) (patterns : List RePattern)
    (logResolved : FsPath) (dryRun : Bool) (nowStr : String) (e : FileEntry)
    (exc : String) (hf : e.isFile = true) (hlog : e.resolved ≠ logResolved)
    (hstat : e.stat = .error exc) :
    processFile cutoff patterns logResolved dryRun nowStr e =
      ⟨[], [], ["warning: cannot stat " ++ pathStr e.path ++ ": " ++ exc], []⟩ := by
  unfold processFile
  rw [hstat]
  simp [hf, hlog]

/-- Helper: in a flatMap whose per-element blocks are tagged with a key that
is unique across the list, filtering by one element's key recovers exactly
that element's block. -/
theorem flatMap_filter_key {α β γ : Type} [DecidableEq γ]
    (f : α → List β) (key : α → γ) (g : β → γ)
    (hf : ∀ a, ∀ b ∈ f a, g b = key a) :
    ∀ (l : List α) (e : α), e ∈ l → (l.map key).Nodup →
      (l.flatMap f).filter (fun b => decide (g b = key e)) = f e := by
  intro l
  induction l with
  | nil => intro e he _; simp at he
  | cons a t ih =>
    intro e he hnd
    simp only [List.map_cons, List.nodup_cons] at hnd
    obtain ⟨hka, hndt⟩ := hnd
    rw [List.flatMap_cons, List.filter_append]
    rcases List.mem_cons.mp he with rfl | het
    · have h1 : (f e).filter (fun b => decide (g b = key e)) = f e :=
        List.filter_eq_self.mpr (fun b hb => by simp [hf e b hb])
      have h2 : (t.flatMap f).filter (fun b => decide (g b = key e)) = [] := by
        refine List.filter_eq_nil_iff.mpr ?_
        intro b hb
        obtain ⟨x, hx, hbx⟩ := List.mem_flatMap.mp hb
        have hgb := hf x b hbx
        simp only [hgb, decide_eq_true_eq]
        intro hkey
        exact hka (hkey ▸ List.mem_map_of_mem key hx)
      rw [h1, h2, List.append_nil]
    · have hne : key a ≠ key e := by
        intro h
        exact hka (h ▸ List.mem_map_of_mem key het)
      have h1 : (f a).filter (fun b => decide (g b = key e)) = [] := by
        refine List.filter_eq_nil_iff.mpr ?_
        intro b hb
        simp [hf a b hb, hne]
      rw [h1, List.nil_append]
      exact ih e het hndt

/-- Helper: membership in a list is membership in its filter by equality with
the sought element. -/
theorem mem_iff_mem_filter_eq {α : Type} [DecidableEq α] (l : List α) (x : α) :
    x ∈ l ↔ x ∈ l.filter (fun q => decide (q = x)) := by
  simp [List.mem_filter]

/-- Helper: the rows of a run are the concatenation of the per-entry rows. -/
theorem prune_files_records_def (cutoff : Int) (patterns : List RePattern)
    (logResolved : FsPath) (dryRun : Bool) (now : Int) (entries : List FileEntry) :
    (prune_files cutoff patterns logResolved dryRun now entries).records =
      entries.flatMap
        (fun e => (processFile cutoff patterns logResolved dryRun (fmtTime now) e).records) := rfl

/-- Helper: the deletions of a run are the concatenation of the per-entry
deletions. -/
theorem prune_files_deleted_def (cutoff : Int) (patterns : List RePattern)
    (logResolved : FsPath) (dryRun : Bool) (now : Int) (entries : List FileEntry) :
    (prune_files cutoff patterns logResolved dryRun now entries).deleted =
      entries.flatMap
        (fun e => (processFile cutoff patterns logResolved dryRun (fmtTime now) e).deleted) := rfl

/-- Helper: with pairwise-distinct entry paths, the rows of a run attributed
to one entry's path are exactly that entry's own rows, and the entry's path
was deleted in the run exactly when that entry's own processing deleted it. -/
theorem prune_files_per_entry (cutoff : Int) (patterns : List RePattern)
    (logResolved : FsPath) (dryRun : Bool) (now : Int)
    (entries : List FileEntry) (e : FileEntry) (he : e ∈ entries)
    (hnd : (entries.map FileEntry.path).Nodup) :
    ((prune_files cutoff patterns logResolved dryRun now entries).records.filter
        (fun r => decide (r.file = e.path)) =
      (processFile cutoff patterns logResolved dryRun (fmtTime now) e).records) ∧
    (e.path ∈ (prune_files cutoff patterns logResolved dryRun now entries).deleted ↔
      e.path ∈ (processFile cutoff patterns logResolved dryRun (fmtTime now) e).deleted) := by
  constructor
  · exact flatMap_filter_key _ FileEntry.path AuditRecord.file
      (fun a b hb =>
        ((processFile_components cutoff patterns logResolved dryRun (fmtTime now) a).1 b hb).1)
      entries e he hnd
  · constructor
    · intro h
      rw [prune_files_deleted_def] at h
      obtain ⟨x, hx, hmem⟩ := List.mem_flatMap.mp h
      have hxp :=
        (processFile_components cutoff patterns logResolved dryRun (fmtTime now) x).2 _ hmem
      have hxe : x = e := List.inj_on_of_nodup_map hnd hx he hxp.symm
      exact hxe ▸ hmem
    · intro h
      rw [prune_files_deleted_def]
      exact List.mem_flatMap.mpr ⟨e, he, h⟩

/-- C1: in a run over entries with pairwise-distinct paths, every regular
file that is not the log file, whose modification time reads strictly older
than the cutoff, that matches an empty or satisfied pattern set and whose
removal would succeed, receives exactly one audit row — outcome dry-run in
dry-run mode and deleted otherwise — and is removed from disk exactly when
the mode is not dry-run; and every file whose modification time reads at or
after the cutoff (the boundary itself included) receives no audit row and
remains on disk in either mode. -/
theorem c1_age_cutoff_filtering (cutoff : Int) (patterns : List RePattern)
    (logResolved : FsPath) (dryRun : Bool) (now : Int) (entries : List FileEntry)
    (hnd : (entries.map FileEntry.path).Nodup) :
    (∀ e ∈ entries, ∀ m : Int, e.isFile = true → e.resolved ≠ logResolved →
      e.stat = .ok m → m < cutoff →
      pattern_allows (pathName e.path) patterns = true → e.unlink = .ok () →
      ((prune_files cutoff patterns logResolved dryRun now entries).records.filter
          (fun r => decide (r.file = e.path)) =
        [⟨fmtTime now, e.path, fmtTime m,
          if dryRun then "dry-run" else "deleted"⟩]) ∧
      (dryRun = false →
        e.path ∈ (prune_files cutoff patterns logResolved dryRun now entries).deleted) ∧
      (dryRun = true →
        e.path ∉ (prune_files cutoff patterns logResolved dryRun now entries).deleted)) ∧
    (∀ e ∈ entries, ∀ m : Int, e.stat = .ok m → cutoff ≤ m →
      ((prune_files cutoff patterns logResolved dryRun now entries).records.filter
          (fun r => decide (r.file = e.path)) = []) ∧
      e.path ∉ (prune_files cutoff patterns logResolved dryRun now entries).deleted) := by
  constructor
  · intro e he m hf hlog hstat hm hpat hok
    obtain ⟨hrec, hdel⟩ :=
      prune_files_per_entry cutoff patterns logResolved dryRun now entries e he hnd
    have hev := processFile_eligible cutoff patterns logResolved dryRun (fmtTime now) e m
      hf hlog hstat hm hpat hok
    refine ⟨?_, ?_, ?_⟩
    · rw [hrec, hev]
      cases dryRun <;> rfl
    · intro hdr; subst hdr
      rw [hdel, hev]
      simp
    · intro hdr; subst hdr
      rw [hdel, hev]
      simp
  · intro e he m hstat hm
    obtain ⟨hrec, hdel⟩ :=
      prune_files_per_entry cutoff patterns logResolved dryRun now entries e he hnd
    have hev := processFile_retained cutoff patterns logResolved dryRun (fmtTime now) e m
      hstat hm
    refine ⟨?_, ?_⟩
    · rw [hrec, hev]
    · rw [hdel, hev]
      simp

/-- Witness for c1_age_cutoff_filtering: a concrete non-dry-run over an old
file and a fresh file with cutoff 0: the old file gets exactly one deleted
row and is removed, the fresh one gets no row and stays. -/
theorem c1_age_cutoff_filtering_witness :
    ((prune_files 0 [] ["log"] false 100
        [⟨["old"], ["old"], true, .ok (-5), .ok ()⟩,
         ⟨["new"], ["new"], true, .ok 3, .ok ()⟩]).records.filter
        (fun r => decide (r.file = (["old"] : FsPath))) =
      [⟨fmtTime 100, ["old"], fmtTime (-5), "deleted"⟩]) ∧
    (["old"] : FsPath) ∈ (prune_files 0 [] ["log"] false 100
        [⟨["old"], ["old"], true, .ok (-5), .ok ()⟩,
         ⟨["new"], ["new"], true, .ok 3, .ok ()⟩]).deleted ∧
    ((prune_files 0 [] ["log"] false 100
        [⟨["old"], ["old"], true, .ok (-5), .ok ()⟩,
         ⟨["new"], ["new"], true, .ok 3, .ok ()⟩]).records.filter
        (fun r => decide (r.file = (["new"] : FsPath))) = []) ∧
    (["new"] : FsPath) ∉ (prune_files 0 [] ["log"] false 100
        [⟨["old"], ["old"], true, .ok (-5), .ok ()⟩,
         ⟨["new"], ["new"], true, .ok 3, .ok ()⟩]).deleted := by
  have h := c1_age_cutoff_filtering 0 [] ["log"] false 100
    [⟨["old"], ["old"], true, .ok (-5), .ok ()⟩,
     ⟨["new"], ["new"], true, .ok 3, .ok ()⟩] (by decide)
  have h1 := h.1 ⟨["old"], ["old"], true, .ok (-5), .ok ()⟩ (by decide) (-5)
    rfl (by decide) rfl (by decide) rfl rfl
  have h2 := h.2 ⟨["new"], ["new"], true, .ok 3, .ok ()⟩ (by decide) 3 rfl (by decide)
  exact ⟨h1.1, h1.2.1 rfl, h2.1, h2.2⟩

/-- C5: an entry whose resolved path equals the resolved log path is skipped
before any other check — whatever its stat and unlink behaviour it produces
no row, no deletion, no warning and no notice — and over a whole run with
pairwise-distinct paths the log file receives no audit row and is never
deleted, even when it lies inside the target tree. -/
theorem c5_log_file_never_candidate (cutoff : Int) (patterns : List RePattern)
    (logResolved : FsPath) (dryRun : Bool) (now : Int) :
    (∀ (nowStr : String) (e : FileEntry), e.resolved = logResolved →
      processFile cutoff patterns logResolved dryRun nowStr e = ⟨[], [], [], []⟩) ∧
    (∀ entries : List FileEntry, (entries.map FileEntry.path).Nodup →
      ∀ e ∈ entries, e.resolved = logResolved →
      ((prune_files cutoff patterns logResolved dryRun now entries).records.filter
          (fun r => decide (r.file = e.path)) = []) ∧
      e.path ∉ (prune_files cutoff patterns logResolved dryRun now entries).deleted) := by
  refine ⟨fun nowStr e h => processFile_log_excluded cutoff patterns logResolved dryRun nowStr e h, ?_⟩
  intro entries hnd e he hlog
  obtain ⟨hrec, hdel⟩ :=
    prune_files_per_entry cutoff patterns logResolved dryRun now entries e he hnd
  have hev := processFile_log_excluded cutoff patterns logResolved dryRun (fmtTime now) e hlog
  refine ⟨?_, ?_⟩
  · rw [hrec, hev]
  · rw [hdel, hev]
    simp

/-- Witness for c5_log_file_never_candidate: a very old regular file whose
resolved path is the resolved log path is skipped, gets no row and stays. -/
theorem c5_log_file_never_candidate_witness :
    (processFile 0 [] ["t", "cleanup.csv"] false "now"
        ⟨["cleanup.csv"], ["t", "cleanup.csv"], true, .ok (-100), .ok ()⟩ =
      ⟨[], [], [], []⟩) ∧
    ((prune_files 0 [] ["t", "cleanup.csv"] false 5
        [⟨["cleanup.csv"], ["t", "cleanup.csv"], true, .ok (-100), .ok ()⟩]).records.filter
        (fun r => decide (r.file = (["cleanup.csv"] : FsPath))) = []) ∧
    (["cleanup.csv"] : FsPath) ∉ (prune_files 0 [] ["t", "cleanup.csv"] false 5
        [⟨["cleanup.csv"], ["t", "cleanup.csv"], true, .ok (-100), .ok ()⟩]).deleted := by
  have h := c5_log_file_never_candidate 0 [] ["t", "cleanup.csv"] false 5
  have h2 := h.2 [⟨["cleanup.csv"], ["t", "cleanup.csv"], true, .ok (-100), .ok ()⟩]
    (by decide) ⟨["cleanup.csv"], ["t", "cleanup.csv"], true, .ok (-100), .ok ()⟩
    (by decide) rfl
  exact ⟨h.1 "now" _ rfl, h2.1, h2.2⟩

/-- C6: when unlinking an eligible file fails, its processing emits exactly
one audit row whose message carries the underlying OS error text, prints one
warning to the error stream, deletes nothing — and the run continues: in a
run in which the entry sits between two sublists, the rows are those of the
first sublist, then the error row, then those of the second sublist. -/
theorem c6_delete_failure_recorded (cutoff : Int) (patterns : List RePattern)
    (logResolved : FsPath) (now : Int) (e : FileEntry) (m : Int) (exc : String)
    (hf : e.isFile = true) (hlog : e.resolved ≠ logResolved)
    (hstat : e.stat = .ok m) (hm : m < cutoff)
    (hpat : pattern_allows (pathName e.path) patterns = true)
    (hu : e.unlink = .error exc) :
    (processFile cutoff patterns logResolved false (fmtTime now) e =
      ⟨[⟨fmtTime now, e.path, fmtTime m, "error deleting: " ++ exc⟩], [],
       ["warning: error deleting: " ++ exc ++ " " ++ pathStr e.path], []⟩) ∧
    (∀ es1 es2 : List FileEntry,
      (prune_files cutoff patterns logResolved false now (es1 ++ e :: es2)).records =
        (prune_files cutoff patterns logResolved false now es1).records ++
        [⟨fmtTime now, e.path, fmtTime m, "error deleting: " ++ exc⟩] ++
        (prune_files cutoff patterns logResolved false now es2).records) := by
  have hev := processFile_unlink_failed cutoff patterns logResolved (fmtTime now) e m exc
    hf hlog hstat hm hpat hu
  refine ⟨hev, ?_⟩
  intro es1 es2
  rw [prune_files_records_def, prune_files_records_def, prune_files_records_def,
    List.flatMap_append, List.flatMap_cons, hev]
  simp

/-- Witness for c6_delete_failure_recorded: a concrete old file whose unlink
fails with a permission error yields the error row and warning, and a
one-entry run shows the surrounding run structure. -/
theorem c6_delete_failure_recorded_witness :
    (processFile 0 [] ["log"] false (fmtTime 7)
        ⟨["f"], ["f"], true, .ok (-3), .error "denied"⟩ =
      ⟨[⟨fmtTime 7, ["f"], fmtTime (-3), "error deleting: " ++ "denied"⟩], [],
       ["warning: error deleting: " ++ "denied" ++ " " ++ pathStr ["f"]], []⟩) ∧
    ((prune_files 0 [] ["log"] false 7
        ([] ++ ⟨["f"], ["f"], true, .ok (-3), .error "denied"⟩ :: [])).records =
      (prune_files 0 [] ["log"] false 7 []).records ++
        [⟨fmtTime 7, ["f"], fmtTime (-3), "error deleting: " ++ "denied"⟩] ++
      (prune_files 0 [] ["log"] false 7 []).records) := by
  have h := c6_delete_failure_recorded 0 [] ["log"] 7
    ⟨["f"], ["f"], true, .ok (-3), .error "denied"⟩ (-3) "denied" rfl (by decide)
    rfl (by decide) rfl rfl
  exact ⟨h.1, h.2 [] []⟩

/-- C7: for a regular non-log entry, a stat failure produces one operator
warning and no audit row; and whenever stat succeeds on an entry passing the
age and pattern filters, exactly one row is produced whatever the mode and
the unlink outcome — so stat failure is the only considered-entry path that
produces no row. -/
theorem c7_stat_failure_warn_and_skip (cutoff : Int) (patterns : List RePattern)
    (logResolved : FsPath) (dryRun : Bool) (nowStr : String) (e : FileEntry)
    (hf : e.isFile = true) (hlog : e.resolved ≠ logResolved) :
    (∀ exc, e.stat = .error exc →
      processFile cutoff patterns logResolved dryRun nowStr e =
        ⟨[], [], ["warning: cannot stat " ++ pathStr e.path ++ ": " ++ exc], []⟩) ∧
    (∀ m : Int, e.stat = .ok m → m < cutoff →
      pattern_allows (pathName e.path) patterns = true →
      (processFile cutoff patterns logResolved dryRun nowStr e).records.length = 1) := by
  constructor
  · intro exc hstat
    exact processFile_stat_failed cutoff patterns logResolved dryRun nowStr e exc hf hlog hstat
  · intro m hstat hm hpat
    unfold processFile
    rw [hstat]
    cases dryRun <;> rcases hu : e.unlink with exc | u <;>
      simp [hf, hlog, not_le.mpr hm, hpat, hu]

/-- Witness for c7_stat_failure_warn_and_skip: a stat failure yields only the
warning, while an eligible entry always yields exactly one row. -/
theorem c7_stat_failure_warn_and_skip_witness :
    (processFile 0 [] ["log"] false "now"
        ⟨["f"], ["f"], true, .error "io", .ok ()⟩ =
      ⟨[], [], ["warning: cannot stat " ++ pathStr ["f"] ++ ": " ++ "io"], []⟩) ∧
    (processFile 0 [] ["log"] false "now"
        ⟨["g"], ["g"], true, .ok (-1), .ok ()⟩).records.length = 1 := by
  refine ⟨(c7_stat_failure_warn_and_skip 0 [] ["log"] false "now"
      ⟨["f"], ["f"], true, .error "io", .ok ()⟩ rfl (by decide)).1 "io" rfl,
    (c7_stat_failure_warn_and_skip 0 [] ["log"] false "now"
      ⟨["g"], ["g"], true, .ok (-1), .ok ()⟩ rfl (by decide)).2 (-1) rfl (by decide) rfl⟩

/-- Helper: one directory step never touches the files, and it either leaves
the directory set unchanged or — only in non-dry-run mode when the examined
directory is empty in the current state — erases exactly that directory. -/
theorem dirStep_fs (listErr rmdirErr : OsErrFun) (dryRun : Bool) (nowStr : String)
    (st : DirRunState) (d : FsPath) :
    (dirStep listErr rmdirErr dryRun nowStr st d).fs.files = st.fs.files ∧
    ((dirStep listErr rmdirErr dryRun nowStr st d).fs.dirs = st.fs.dirs ∨
      (dryRun = false ∧ isEmptyDir st.fs d = true ∧
        (dirStep listErr rmdirErr dryRun nowStr st d).fs.dirs = st.fs.dirs.erase d)) := by
  unfold dirStep
  repeat' split
  all_goals simp_all

/-- Helper: the full evaluation of one directory step when the iterdir and
rmdir calls succeed and the directory is empty, in non-dry-run mode. -/
theorem dirStep_removes (listErr rmdirErr : OsErrFun) (nowStr : String)
    (st : DirRunState) (d : FsPath) (hL : listErr d = none) (hR : rmdirErr d = none)
    (he : isEmptyDir st.fs d = true) :
    dirStep listErr rmdirErr false nowStr st d =
      ⟨⟨st.fs.dirs.erase d, st.fs.files⟩,
       st.records ++ [⟨nowStr, d, "", "removed empty dir"⟩],
       st.warnings, st.notices⟩ := by
  unfold dirStep
  rw [hL, hR]
  simp [he]

/-- Helper: a directory with a file as immediate child is not empty. -/
theorem isEmptyDir_false_of_file_child (fs : DirFS) (d f : FsPath)
    (hf : f ∈ fs.files) (hc : isChildOf f d = true) :
    isEmptyDir fs d = false := by
  unfold isEmptyDir
  have : fs.files.any (fun p => isChildOf p d) = true :=
    List.any_eq_true.mpr ⟨f, hf, hc⟩
  simp [this]

/-- Helper: across any sequence of directory steps the files are unchanged,
and a directory with a file as immediate child survives. -/
theorem foldl_dirStep_keeps_file_dirs (listErr rmdirErr : OsErrFun) (dryRun : Bool)
    (nowStr : String) (f : FsPath) :
    ∀ (l : List FsPath) (st : DirRunState) (d : FsPath),
      d ∈ st.fs.dirs → f ∈ st.fs.files → isChildOf f d = true →
      d ∈ (l.foldl (dirStep listErr rmdirErr dryRun nowStr) st).fs.dirs ∧
      f ∈ (l.foldl (dirStep listErr rmdirErr dryRun nowStr) st).fs.files := by
  intro l
  induction l with
  | nil => intro st d hd hf hc; exact ⟨hd, hf⟩
  | cons x t ih =>
    intro st d hd hf hc
    rw [List.foldl_cons]
    obtain ⟨hfiles, hdirs⟩ := dirStep_fs listErr rmdirErr dryRun nowStr st x
    refine ih (dirStep listErr rmdirErr dryRun nowStr st x) d ?_ (hfiles ▸ hf) hc
    rcases hdirs with h | ⟨_, hemp, h⟩
    · exact h ▸ hd
    · rw [h]
      have hne : d ≠ x := by
        intro hdx
        have hfc := isEmptyDir_false_of_file_child st.fs d f hf hc
        rw [hdx, hemp] at hfc
        exact absurd hfc (by decide)
      exact (List.mem_erase_of_ne hne).mpr hd

/-- Helper: in dry-run mode a directory step leaves the filesystem alone. -/
theorem dirStep_dryRun_fs (listErr rmdirErr : OsErrFun) (nowStr : String)
    (st : DirRunState) (d : FsPath) :
    (dirStep listErr rmdirErr true nowStr st d).fs = st.fs := by
  unfold dirStep
  repeat' split
  all_goals simp_all

/-- Helper: unfolding of the directory phase as a fold over the deepest-first
snapshot. -/
theorem prune_empty_dirs_def (listErr rmdirErr : OsErrFun) (dryRun : Bool)
    (now : Int) (fs : DirFS) :
    prune_empty_dirs listErr rmdirErr dryRun now fs =
      (sortByDepthDesc (rglobSubdirs fs.dirs)).foldl
        (dirStep listErr rmdirErr dryRun (fmtTime now)) ⟨fs, [], [], []⟩ := rfl

/-- Helper: the deepest-first snapshot is pairwise depth-descending. -/
theorem sortByDepthDesc_pairwise (ds : List FsPath) :
    (sortByDepthDesc ds).Pairwise (fun a b => depthOf b ≤ depthOf a) := by
  unfold sortByDepthDesc
  haveI : IsTotal FsPath (fun a b => depthOf b ≤ depthOf a) :=
    ⟨fun a b => Nat.le_total (depthOf b) (depthOf a)⟩
  haveI : IsTrans FsPath (fun a b => depthOf b ≤ depthOf a) :=
    ⟨fun a b c hab hbc => le_trans hbc hab⟩
  exact List.sorted_insertionSort _ ds

/-- Helper: membership in the deepest-first snapshot is membership among the
directories with a nonempty relative path. -/
theorem sortByDepthDesc_mem (ds : List FsPath) (d : FsPath) :
    d ∈ sortByDepthDesc (rglobSubdirs ds) ↔ d ∈ ds ∧ d ≠ [] := by
  unfold sortByDepthDesc rglobSubdirs
  rw [(List.perm_insertionSort _ _).mem_iff, List.mem_filter]
  simp

/-- Helper: processing a depth-descending list that covers every nonempty
directory of a file-free state, with error-free OS calls, removes every
nonempty directory: children are evaluated before their parents, so each
directory is already childless by the time it is examined. -/
theorem foldl_dirStep_clears (listErr rmdirErr : OsErrFun) (nowStr : String)
    (hL : ∀ d, listErr d = none) (hR : ∀ d, rmdirErr d = none) :
    ∀ (l : List FsPath) (st : DirRunState),
      l.Pairwise (fun a b => depthOf b ≤ depthOf a) →
      (∀ d ∈ l, d ≠ []) →
      st.fs.files = [] →
      st.fs.dirs.Nodup →
      (∀ p ∈ st.fs.dirs, p = [] ∨ p ∈ l) →
      ∀ p ∈ (l.foldl (dirStep listErr rmdirErr false nowStr) st).fs.dirs, p = [] := by
  intro l
  induction l with
  | nil =>
    intro st _ _ _ _ hsub p hp
    rcases hsub p hp with h | h
    · exact h
    · exact absurd h (List.not_mem_nil p)
  | cons d t ih =>
    intro st hpw hne hfiles hnd hsub
    obtain ⟨hd_rel, hpw_t⟩ := List.pairwise_cons.mp hpw
    have hempty : isEmptyDir st.fs d = true := by
      have h1 : st.fs.dirs.any (fun p => isChildOf p d) = false := by
        rw [List.any_eq_false]
        intro c hc hch
        unfold isChildOf at hch
        simp only [Bool.and_eq_true, beq_iff_eq] at hch
        obtain ⟨hlen, _⟩ := hch
        rcases hsub c hc with hc0 | hcmem
        · rw [hc0] at hlen
          simp at hlen
        · rcases List.mem_cons.mp hcmem with hcd | hct
          · rw [hcd] at hlen
            omega
          · have hdep := hd_rel c hct
            unfold depthOf at hdep
            omega
      have h2 : st.fs.files.any (fun p => isChildOf p d) = false := by
        rw [hfiles]
        rfl
      unfold isEmptyDir
      rw [h1, h2]
      rfl
    rw [List.foldl_cons, dirStep_removes listErr rmdirErr nowStr st d (hL d) (hR d) hempty]
    refine ih _ hpw_t (fun x hx => hne x (List.mem_cons_of_mem d hx)) hfiles
      (List.Nodup.erase d hnd) ?_
    intro p hp
    obtain ⟨hpd, hpmem⟩ := (List.Nodup.mem_erase_iff hnd).mp hp
    rcases hsub p hpmem with h | h
    · exact Or.inl h
    · rcases List.mem_cons.mp h with h | h
      · exact absurd h hpd
      · exact Or.inr h

/-- Helper: the rows appended by one dry-run directory step. -/
theorem dirStep_dryRun_records (listErr rmdirErr : OsErrFun) (nowStr : String)
    (st : DirRunState) (d : FsPath) :
    (dirStep listErr rmdirErr true nowStr st d).records =
      st.records ++ (if (listErr d).isNone && isEmptyDir st.fs d
        then [⟨nowStr, d, "", "dry-run empty dir"⟩] else []) := by
  unfold dirStep
  cases listErr d with
  | some exc => simp
  | none => cases h : isEmptyDir st.fs d <;> simp [h]

/-- Helper: a dry-run directory phase leaves the filesystem unchanged and
appends exactly one preview row per examined directory that is listable and
empty in the initial state. -/
theorem foldl_dirStep_dryRun (listErr rmdirErr : OsErrFun) (nowStr : String) :
    ∀ (l : List FsPath) (st : DirRunState),
      (l.foldl (dirStep listErr rmdirErr true nowStr) st).fs = st.fs ∧
      (l.foldl (dirStep listErr rmdirErr true nowStr) st).records =
        st.records ++ (l.filter
          (fun d => (listErr d).isNone && isEmptyDir st.fs d)).map
          (fun d => ⟨nowStr, d, "", "dry-run empty dir"⟩) := by
  intro l
  induction l with
  | nil => intro st; exact ⟨rfl, by simp⟩
  | cons d t ih =>
    intro st
    rw [List.foldl_cons]
    obtain ⟨ihfs, ihrec⟩ := ih (dirStep listErr rmdirErr true nowStr st d)
    have hfs := dirStep_dryRun_fs listErr rmdirErr nowStr st d
    constructor
    · rw [ihfs, hfs]
    · rw [ihrec, hfs, dirStep_dryRun_records, List.filter_cons]
      cases hcond : ((listErr d).isNone && isEmptyDir st.fs d) <;>
        simp [hcond, List.append_assoc]

/-- Helper: any row present after one directory step was already present or
carries the shared date string. -/
theorem dirStep_records_date (listErr rmdirErr : OsErrFun) (dryRun : Bool)
    (nowStr : String) (st : DirRunState) (d : FsPath) :
    ∀ r ∈ (dirStep listErr rmdirErr dryRun nowStr st d).records,
      r ∈ st.records ∨ r.date = nowStr := by
  intro r hr
  unfold dirStep at hr
  repeat' split at hr
  all_goals try exact Or.inl hr
  all_goals
    rcases List.mem_append.mp hr with h | h
  all_goals try exact Or.inl h
  all_goals exact Or.inr (by
    simp only [List.mem_singleton] at h
    rw [h])

/-- Helper: every row produced by a fold of directory steps over a state whose
rows all carry the shared date string still carries it. -/
theorem foldl_dirStep_date (listErr rmdirErr : OsErrFun) (dryRun : Bool) (nowStr : String) :
    ∀ (l : List FsPath) (st : DirRunState),
      (∀ r ∈ st.records, r.date = nowStr) →
      ∀ r ∈ (l.foldl (dirStep listErr rmdirErr dryRun nowStr) st).records, r.date = nowStr := by
  intro l
  induction l with
  | nil => intro st h; exact h
  | cons d t ih =>
    intro st h
    rw [List.foldl_cons]
    refine ih _ ?_
    intro r hr
    rcases dirStep_records_date listErr rmdirErr dryRun nowStr st d r hr with h1 | h1
    · exact h r h1
    · exact h1

/-- Helper: the root path survives a fold of directory steps in which every
examined directory has a nonempty path. -/
theorem foldl_dirStep_keeps_root (listErr rmdirErr : OsErrFun) (dryRun : Bool)
    (nowStr : String) :
    ∀ (l : List FsPath) (st : DirRunState), (∀ d ∈ l, d ≠ []) →
      ([] : FsPath) ∈ st.fs.dirs →
      ([] : FsPath) ∈ (l.foldl (dirStep listErr rmdirErr dryRun nowStr) st).fs.dirs := by
  intro l
  induction l with
  | nil => intro st _ h; exact h
  | cons d t ih =>
    intro st hne hroot
    rw [List.foldl_cons]
    refine ih _ (fun x hx => hne x (List.mem_cons_of_mem d hx)) ?_
    obtain ⟨_, hdirs⟩ := dirStep_fs listErr rmdirErr dryRun nowStr st d
    rcases hdirs with h | ⟨_, _, h⟩
    · exact h ▸ hroot
    · rw [h]
      exact (List.mem_erase_of_ne
        (Ne.symm (hne d (List.mem_cons_self d t)))).mpr hroot

/-- C2 counterexample: with the target root empty (no subdirectories and no
files at all), a non-dry-run directory phase with error-free OS calls
enumerates nothing — the root is not in the enumeration, no row is emitted
and the root is not removed — so the target root is not eligible for removal
even when it is empty, contrary to the claim. -/
theorem c2_root_not_enumerated_counterexample :
    ([] : FsPath) ∉ sortByDepthDesc (rglobSubdirs [([] : FsPath)]) ∧
    (prune_empty_dirs (fun _ => none) (fun _ => none) false 0 ⟨[[]], []⟩).fs.dirs
      = [[]] ∧
    (prune_empty_dirs (fun _ => none) (fun _ => none) false 0 ⟨[[]], []⟩).records
      = [] := by
  refine ⟨?_, ?_, ?_⟩ <;> decide

/-- C2 amended: the directory phase enumerates exactly the directories
strictly below the target root — the root itself, relative path [], is never
enumerated — and consequently the root directory always survives a run, in
any mode. -/
theorem c2_enumeration_excludes_root (fs : DirFS) (listErr rmdirErr : OsErrFun)
    (dryRun : Bool) (now : Int) :
    (∀ d : FsPath,
      d ∈ sortByDepthDesc (rglobSubdirs fs.dirs) ↔ (d ∈ fs.dirs ∧ d ≠ [])) ∧
    ([] ∈ fs.dirs →
      [] ∈ (prune_empty_dirs listErr rmdirErr dryRun now fs).fs.dirs) := by
  refine ⟨fun d => sortByDepthDesc_mem fs.dirs d, ?_⟩
  intro hroot
  rw [prune_empty_dirs_def]
  refine foldl_dirStep_keeps_root listErr rmdirErr dryRun (fmtTime now)
    (sortByDepthDesc (rglobSubdirs fs.dirs)) ⟨fs, [], [], []⟩ ?_ hroot
  intro d hd
  exact ((sortByDepthDesc_mem fs.dirs d).mp hd).2

/-- Witness for c2_enumeration_excludes_root: with one subdirectory next to
the root, the subdirectory is enumerated and the root survives the run. -/
theorem c2_enumeration_excludes_root_witness :
    ((["a"] : FsPath) ∈ sortByDepthDesc (rglobSubdirs [([] : FsPath), ["a"]]) ↔
      ((["a"] : FsPath) ∈ [([] : FsPath), ["a"]] ∧ (["a"] : FsPath) ≠ [])) ∧
    ([] : FsPath) ∈ (prune_empty_dirs (fun _ => none) (fun _ => none) false 2
      ⟨[[], ["a"]], []⟩).fs.dirs := by
  have h := c2_enumeration_excludes_root ⟨[[], ["a"]], []⟩ (fun _ => none)
    (fun _ => none) false 2
  exact ⟨h.1 ["a"], h.2 (by decide)⟩

/-- C4: the non-dry-run directory phase removes only directories empty at
their evaluation time — one step either leaves the directory set unchanged
or, only when the examined directory is empty in the current state, erases
exactly that directory; a directory containing a file is never removed by a
run; and on a file-free tree a single deepest-first pass with error-free OS
calls removes every directory below the root, children being evaluated before
their parents (concrete nested chain a, a/b, a/b/c included). -/
theorem c4_only_empty_removed_deepest_first (listErr rmdirErr : OsErrFun)
    (now : Int) :
    (∀ (st : DirRunState) (d : FsPath) (dr : Bool) (ns : String),
      (dirStep listErr rmdirErr dr ns st d).fs.dirs ≠ st.fs.dirs →
      isEmptyDir st.fs d = true) ∧
    (∀ (fs : DirFS) (d f : FsPath), d ∈ fs.dirs → f ∈ fs.files →
      isChildOf f d = true →
      d ∈ (prune_empty_dirs listErr rmdirErr false now fs).fs.dirs) ∧
    (∀ fs : DirFS, (∀ d, listErr d = none) → (∀ d, rmdirErr d = none) →
      fs.files = [] → fs.dirs.Nodup →
      ∀ p ∈ (prune_empty_dirs listErr rmdirErr false now fs).fs.dirs, p = []) ∧
    ((prune_empty_dirs (fun _ => none) (fun _ => none) false 1
        ⟨[["a"], ["a", "b"], ["a", "b", "c"]], []⟩).fs.dirs = [] ∧
      (prune_empty_dirs (fun _ => none) (fun _ => none) false 1
        ⟨[["a"], ["a", "b"], ["a", "b", "c"]], []⟩).records =
        [⟨fmtTime 1, ["a", "b", "c"], "", "removed empty dir"⟩,
         ⟨fmtTime 1, ["a", "b"], "", "removed empty dir"⟩,
         ⟨fmtTime 1, ["a"], "", "removed empty dir"⟩]) := by
  refine ⟨?_, ?_, ?_, by decide⟩
  · intro st d dr ns hchg
    rcases (dirStep_fs listErr rmdirErr dr ns st d).2 with h | ⟨_, he, _⟩
    · exact absurd h hchg
    · exact he
  · intro fs d f hd hf hc
    rw [prune_empty_dirs_def]
    exact (foldl_dirStep_keeps_file_dirs listErr rmdirErr false (fmtTime now) f
      (sortByDepthDesc (rglobSubdirs fs.dirs)) ⟨fs, [], [], []⟩ d hd hf hc).1
  · intro fs hL hR hfiles hnd
    rw [prune_empty_dirs_def]
    refine foldl_dirStep_clears listErr rmdirErr (fmtTime now) hL hR
      (sortByDepthDesc (rglobSubdirs fs.dirs)) ⟨fs, [], [], []⟩
      (sortByDepthDesc_pairwise (rglobSubdirs fs.dirs)) ?_ hfiles hnd ?_
    · intro d hdmem
      exact ((sortByDepthDesc_mem fs.dirs d).mp hdmem).2
    · intro p hp
      by_cases hpe : p = []
      · exact Or.inl hpe
      · exact Or.inr ((sortByDepthDesc_mem fs.dirs p).mpr ⟨hp, hpe⟩)

/-- Witness for c4_only_empty_removed_deepest_first: a step that changes the
directory set examined an empty directory, and a directory holding a file
survives a whole run. -/
theorem c4_only_empty_removed_deepest_first_witness :
    isEmptyDir ⟨[["a"]], []⟩ ["a"] = true ∧
    ["x"] ∈ (prune_empty_dirs (fun _ => none) (fun _ => none) false 1
      ⟨[["x"]], [["x", "f"]]⟩).fs.dirs := by
  have h := c4_only_empty_removed_deepest_first (fun _ => none) (fun _ => none) 1
  exact ⟨h.1 ⟨⟨[["a"]], []⟩, [], [], []⟩ ["a"] false "d" (by decide),
    h.2.1 ⟨[["x"]], [["x", "f"]]⟩ ["x"] ["x", "f"] (by decide) (by decide)
      (by decide)⟩

/-- C9: every audit row of the file phase carries the one date string
captured at that phase's start, and every row of the directory phase carries
the one date string captured at its start — row timestamps do not reflect the
moment of each individual action. -/
theorem c9_one_date_per_phase (cutoff : Int) (patterns : List RePattern)
    (logResolved : FsPath) (dryRun : Bool) (nowF : Int) (entries : List FileEntry)
    (listErr rmdirErr : OsErrFun) (dryRun2 : Bool) (nowD : Int) (fs : DirFS) :
    (∀ r ∈ (prune_files cutoff patterns logResolved dryRun nowF entries).records,
      r.date = fmtTime nowF) ∧
    (∀ r ∈ (prune_empty_dirs listErr rmdirErr dryRun2 nowD fs).records,
      r.date = fmtTime nowD) := by
  constructor
  · intro r hr
    rw [prune_files_records_def] at hr
    obtain ⟨e, _, hre⟩ := List.mem_flatMap.mp hr
    exact ((processFile_components cutoff patterns logResolved dryRun
      (fmtTime nowF) e).1 r hre).2
  · rw [prune_empty_dirs_def]
    exact foldl_dirStep_date listErr rmdirErr dryRun2 (fmtTime nowD) _ _
      (fun r hr => absurd hr (List.not_mem_nil r))

/-- Witness for c9_one_date_per_phase: concrete one-row runs of both phases,
whose rows carry the respective phase date strings. -/
theorem c9_one_date_per_phase_witness :
    (⟨fmtTime 9, ["a"], fmtTime (-1), "deleted"⟩ : AuditRecord).date = fmtTime 9 ∧
    (⟨fmtTime 4, ["d"], "", "removed empty dir"⟩ : AuditRecord).date = fmtTime 4 := by
  have h := c9_one_date_per_phase 0 [] ["log"] false 9
    [⟨["a"], ["a"], true, .ok (-1), .ok ()⟩]
    (fun _ => none) (fun _ => none) false 4 ⟨[["d"]], []⟩
  exact ⟨h.1 ⟨fmtTime 9, ["a"], fmtTime (-1), "deleted"⟩ (by decide),
    h.2 ⟨fmtTime 4, ["d"], "", "removed empty dir"⟩ (by decide)⟩

/-- C10: a dry-run directory phase mutates nothing and emits a preview row
exactly for the enumerated directories that are listable and already empty at
the start of the phase; in the concrete nested scenario where directory a
contains only the empty directory a/b, only a/b receives a row — emptiness
never cascades to parents in dry-run mode. -/
theorem c10_dry_run_only_initially_empty (listErr rmdirErr : OsErrFun)
    (now : Int) (fs : DirFS) :
    ((prune_empty_dirs listErr rmdirErr true now fs).fs = fs) ∧
    ((prune_empty_dirs listErr rmdirErr true now fs).records =
      ((sortByDepthDesc (rglobSubdirs fs.dirs)).filter
        (fun d => (listErr d).isNone && isEmptyDir fs d)).map
        (fun d => ⟨fmtTime now, d, "", "dry-run empty dir"⟩)) ∧
    ((prune_empty_dirs (fun _ => none) (fun _ => none) true 3
        ⟨[["a"], ["a", "b"]], []⟩).records =
      [⟨fmtTime 3, ["a", "b"], "", "dry-run empty dir"⟩]) := by
  obtain ⟨h1, h2⟩ := foldl_dirStep_dryRun listErr rmdirErr (fmtTime now)
    (sortByDepthDesc (rglobSubdirs fs.dirs)) ⟨fs, [], [], []⟩
  refine ⟨?_, ?_, by decide⟩
  · rw [prune_empty_dirs_def]
    exact h1
  · rw [prune_empty_dirs_def, h2]
    rfl
